import Mathlib

/-!
# Verification of the `sonogram` colour-gradient core (`src/colour_gradient.rs`)

Shallow embedding of the Rust module. Machine details are modelled as follows:

* `u8` channel values are `Nat`; the Rust type invariant `0 ≤ c ≤ 255` is
  carried as the predicate `RGBAColour.valid` where needed.
* `f32` scalars are modelled as exact rationals `ℚ` (ideal arithmetic).
  All concrete values appearing in the repository's tests are small dyadic
  rationals on which the `f32` computations of the source are exact, so the
  model agrees bit-for-bit with the code on those inputs.
* Rust panics (failed `assert!`, out-of-bounds `Vec` indexing) are modelled
  by an `Option` result: `none` is a panic, `some c` a normal return.
* The cast `scaled_value.floor() as usize` saturates negative floats to `0`;
  this is `Int.toNat ∘ Int.floor` here.
* The cast `... .round() as u8` saturates to `[0, 255]`; `f32::round` rounds
  half away from zero.
-/

set_option autoImplicit false

/-- `RGBAColour` from the source: four `u8` channels (here `Nat`). -/
structure RGBAColour where
  r : Nat
  g : Nat
  b : Nat
  a : Nat
deriving DecidableEq, Repr

/-- The `u8` representation invariant of the four channels. -/
def RGBAColour.valid (c : RGBAColour) : Prop :=
  c.r ≤ 255 ∧ c.g ≤ 255 ∧ c.b ≤ 255 ∧ c.a ≤ 255

instance (c : RGBAColour) : Decidable c.valid := by
  unfold RGBAColour.valid; infer_instance

/-- `ColourGradient` from the source: an ordered stop list and the domain
bounds `min`, `max` (Rust `f32`, modelled as `ℚ`). -/
structure ColourGradient where
  colours : List RGBAColour
  min : ℚ
  max : ℚ
deriving DecidableEq, Repr

namespace ColourGradient

/-- `ColourGradient::new()`: empty stop list, domain `[0, 1]`. -/
def new : ColourGradient :=
  { colours := [], min := 0, max := 1 }

/-- Rounding of `f32::round`: to the nearest integer, halves away from zero.
For `q < 0` this equals `⌈q - 1/2⌉`, written through `Int.floor` as
`-⌊1/2 - q⌋`. -/
def roundHalfAway (q : ℚ) : Int :=
  if 0 ≤ q then ⌊q + 1/2⌋ else -⌊1/2 - q⌋

/-- The saturating cast `as u8` applied to a rounded float: clamps to `[0, 255]`. -/
def satU8 (i : Int) : Nat :=
  (Min.min 255 (Max.max 0 i)).toNat

/-- `ColourGradient::interpolate`:
`((f32::from(finish) - f32::from(start)) * ratio + f32::from(start)).round() as u8`
(the `ratio` argument is called `t` here). -/
def interpolate (start finish : Nat) (t : ℚ) : Nat :=
  satU8 (roundHalfAway (((finish : ℚ) - (start : ℚ)) * t + (start : ℚ)))

/-- `ColourGradient::get_colour`. `none` models a panic: a failed `assert!`
or (in the lookup `match`) out-of-bounds indexing into `colours`.
The source local `ratio` is called `frac` here. -/
def get_colour (g : ColourGradient) (value : ℚ) : Option RGBAColour :=
  if 1 < g.colours.length then
    if g.min ≤ g.max then
      if g.max ≤ value then
        g.colours.getLast?
      else if value ≤ g.min then
        g.colours.head?
      else
        let range := g.max - g.min
        let scaled_value := value / range * ((g.colours.length : ℚ) - 1)
        let idx_value := (⌊scaled_value⌋).toNat
        let frac := scaled_value - (idx_value : ℚ)
        match g.colours[idx_value]?, g.colours[idx_value + 1]? with
        | some fst, some snd =>
            some { r := interpolate fst.r snd.r frac
                   g := interpolate fst.g snd.g frac
                   b := interpolate fst.b snd.b frac
                   a := interpolate fst.a snd.a frac }
        | _, _ => none
    else none
  else none

/-- `ColourGradient::add_colour`: push onto the end of `colours`. -/
def add_colour (g : ColourGradient) (colour : RGBAColour) : ColourGradient :=
  { g with colours := g.colours ++ [colour] }

/-- `ColourGradient::set_max`. -/
def set_max (g : ColourGradient) (m : ℚ) : ColourGradient :=
  { g with max := m }

/-- `ColourGradient::set_min`. -/
def set_min (g : ColourGradient) (m : ℚ) : ColourGradient :=
  { g with min := m }

end ColourGradient

open ColourGradient

/-- The scaled continuous index, the source's local `scaled_value`:
`value / range * (colours.len() as f32 - 1.0)` with `range = max - min`. -/
def scaledOf (g : ColourGradient) (value : ℚ) : ℚ :=
  value / (g.max - g.min) * ((g.colours.length : ℚ) - 1)

/-- The band index, the source's local `idx_value`:
`scaled_value.floor() as usize` (the cast saturates negatives to `0`). -/
def idxOf (g : ColourGradient) (value : ℚ) : Nat :=
  (⌊scaledOf g value⌋).toNat

/-- The fractional band position, the source's local `ratio`:
`scaled_value - idx_value as f32`. -/
def fracOf (g : ColourGradient) (value : ℚ) : ℚ :=
  scaledOf g value - (idxOf g value : ℚ)

/-- Four-channel interpolation between two stops, the body of the
`RGBAColour { .. }` expression the interpolation path returns. -/
def interp4 (fst snd : RGBAColour) (t : ℚ) : RGBAColour :=
  { r := interpolate fst.r snd.r t
    g := interpolate fst.g snd.g t
    b := interpolate fst.b snd.b t
    a := interpolate fst.a snd.a t }

/-- The interpolation step exactly as claim C2 words it: the band index is
the (integer) `floor(scaled)` itself, not the saturated `usize` cast the
code performs, and `ratio = scaled - idx` for that integer `idx`. Written
from the spec's words for comparison with `get_colour`; the band lookup has
no value when `idx` is not a valid position of the stop list. -/
def specInterpPath (g : ColourGradient) (value : ℚ) : Option RGBAColour :=
  let scaled := value / (g.max - g.min) * ((g.colours.length : ℚ) - 1)
  let idx : Int := ⌊scaled⌋
  let frac := scaled - (idx : ℚ)
  if 0 ≤ idx then
    match g.colours[idx.toNat]?, g.colours[idx.toNat + 1]? with
    | some fst, some snd => some (interp4 fst snd frac)
    | _, _ => none
  else none

/-- A call of `get_colour` as a state transition: the Rust receiver is a
shared borrow `&self`, so the store state after the call is the state
before it, paired with the returned colour. -/
def get_colour_call (g : ColourGradient) (value : ℚ) :
    ColourGradient × Option RGBAColour :=
  (g, get_colour g value)

/-! ## Concrete gradients used as inputs -/

def blackC : RGBAColour := ⟨0, 0, 0, 255⟩
def whiteC : RGBAColour := ⟨255, 255, 255, 255⟩

/-- The 2-stop test gradient: black then white over `[0, 1]`, built through
the public API exactly as the repository's test does. -/
def gradientBW : ColourGradient :=
  set_max (set_min (add_colour (add_colour ColourGradient.new blackC) whiteC) 0) 1

/-- The 3-stop test gradient: black, white, black over `[0, 1]`. -/
def gradientBWB : ColourGradient :=
  add_colour gradientBW blackC

/-- A 2-stop gradient over the shifted domain `[1, 2]`. -/
def gradientShifted : ColourGradient := ⟨[blackC, whiteC], 1, 2⟩

/-- A 2-stop gradient over a domain reaching below zero, `[-1, 1]`. -/
def gradientNeg : ColourGradient := ⟨[blackC, whiteC], -1, 1⟩

/-- A 2-stop grey ramp over `[-1, 1]` with per-channel increasing stops. -/
def gradientGrey : ColourGradient :=
  ⟨[⟨100, 100, 100, 255⟩, ⟨200, 200, 200, 255⟩], -1, 1⟩

/-- The degenerate domain `min = max = 1/2` with two distinct stops. -/
def gradientDegenerate : ColourGradient := ⟨[blackC, whiteC], 1/2, 1/2⟩

/-! ## Rounding and saturation lemmas -/

theorem roundHalfAway_natCast (n : Nat) : roundHalfAway (n : ℚ) = n := by
  rw [roundHalfAway, if_pos (Nat.cast_nonneg n),
    show ((n : ℚ) = ((n : ℤ) : ℚ)) by push_cast; ring, Int.floor_int_add]
  norm_num

theorem roundHalfAway_mono {q1 q2 : ℚ} (h : q1 ≤ q2) :
    roundHalfAway q1 ≤ roundHalfAway q2 := by
  unfold roundHalfAway
  by_cases h1 : 0 ≤ q1
  · rw [if_pos h1, if_pos (h1.trans h)]
    exact Int.floor_le_floor (by linarith)
  · rw [if_neg h1]
    by_cases h2 : 0 ≤ q2
    · rw [if_pos h2]
      have ha : (0 : ℤ) ≤ ⌊1/2 - q1⌋ := Int.le_floor.mpr (by push_cast; linarith)
      have hb : (0 : ℤ) ≤ ⌊q2 + 1/2⌋ := Int.le_floor.mpr (by push_cast; linarith)
      omega
    · rw [if_neg h2]
      exact neg_le_neg (Int.floor_le_floor (by linarith))

theorem satU8_mono {i j : Int} (h : i ≤ j) : satU8 i ≤ satU8 j :=
  Int.toNat_le_toNat (min_le_min le_rfl (max_le_max le_rfl h))

theorem satU8_le (i : Int) : satU8 i ≤ 255 := by
  have h := Int.toNat_le_toNat (min_le_left 255 (Max.max 0 i))
  simp only [satU8]
  omega

theorem satU8_natCast {n : Nat} (h : n ≤ 255) : satU8 (n : Int) = n := by
  have h255 : ((n : ℤ) ≤ 255) := by exact_mod_cast h
  simp [satU8, max_eq_right (Int.natCast_nonneg n), min_eq_right h255]

theorem interpolate_mono {s f : Nat} (hsf : s ≤ f) {t1 t2 : ℚ} (h : t1 ≤ t2) :
    interpolate s f t1 ≤ interpolate s f t2 := by
  have hd : (0 : ℚ) ≤ (f : ℚ) - (s : ℚ) := by
    have := (Nat.cast_le (α := ℚ)).mpr hsf
    linarith
  refine satU8_mono (roundHalfAway_mono ?_)
  nlinarith [mul_le_mul_of_nonneg_left h hd]

theorem interpolate_le {s f : Nat} (hsf : s ≤ f) (hf : f ≤ 255) {t : ℚ}
    (ht : t ≤ 1) : interpolate s f t ≤ f := by
  have hd : (0 : ℚ) ≤ (f : ℚ) - (s : ℚ) := by
    have := (Nat.cast_le (α := ℚ)).mpr hsf
    linarith
  have harg : ((f : ℚ) - (s : ℚ)) * t + (s : ℚ) ≤ (f : ℚ) := by
    nlinarith [mul_le_mul_of_nonneg_left ht hd]
  calc interpolate s f t
      ≤ satU8 (roundHalfAway (f : ℚ)) := satU8_mono (roundHalfAway_mono harg)
    _ = f := by rw [roundHalfAway_natCast, satU8_natCast hf]

theorem le_interpolate {s f : Nat} (hsf : s ≤ f) (hs : s ≤ 255) {t : ℚ}
    (ht : 0 ≤ t) : s ≤ interpolate s f t := by
  have hd : (0 : ℚ) ≤ (f : ℚ) - (s : ℚ) := by
    have := (Nat.cast_le (α := ℚ)).mpr hsf
    linarith
  have harg : (s : ℚ) ≤ ((f : ℚ) - (s : ℚ)) * t + (s : ℚ) := by
    nlinarith [mul_le_mul_of_nonneg_left ht hd]
  calc s = satU8 (roundHalfAway (s : ℚ)) := by
        rw [roundHalfAway_natCast, satU8_natCast hs]
    _ ≤ interpolate s f t := satU8_mono (roundHalfAway_mono harg)

/-! ## Branch characterisations of `get_colour` -/

theorem get_colour_clamp_max {g : ColourGradient} {value : ℚ}
    (h1 : 1 < g.colours.length) (h2 : g.min ≤ g.max) (h3 : g.max ≤ value) :
    get_colour g value = g.colours.getLast? := by
  simp [get_colour, h1, h2, h3]

theorem get_colour_clamp_min {g : ColourGradient} {value : ℚ}
    (h1 : 1 < g.colours.length) (h2 : g.min ≤ g.max) (h3 : ¬ g.max ≤ value)
    (h4 : value ≤ g.min) :
    get_colour g value = g.colours.head? := by
  simp [get_colour, h1, h2, h3, h4]

theorem get_colour_interp {g : ColourGradient} {value : ℚ}
    (h1 : 1 < g.colours.length) (h2 : g.min ≤ g.max) (h3 : ¬ g.max ≤ value)
    (h4 : ¬ value ≤ g.min) :
    get_colour g value =
      match g.colours[idxOf g value]?, g.colours[idxOf g value + 1]? with
      | some fst, some snd => some (interp4 fst snd (fracOf g value))
      | _, _ => none := by
  simp only [get_colour, if_pos h1, if_pos h2, if_neg h3, if_neg h4]
  rfl

theorem gradientBW_eq : gradientBW = ⟨[blackC, whiteC], 0, 1⟩ := rfl

theorem gradientBWB_eq : gradientBWB = ⟨[blackC, whiteC, blackC], 0, 1⟩ := rfl

/-! ## Claim C3: precondition violations fail fatally -/

/-- Claim C3: calling `get_colour` on a store with fewer than 2 colour stops,
or with `max < min`, fails fatally (here: `none`, the model of a Rust panic)
and never returns a normal colour value. -/
theorem get_colour_precondition_panic (g : ColourGradient) (value : ℚ)
    (h : g.colours.length ≤ 1 ∨ g.max < g.min) :
    get_colour g value = none := by
  unfold get_colour
  rcases h with h | h
  · rw [if_neg (by omega)]
  · by_cases h1 : 1 < g.colours.length
    · rw [if_pos h1, if_neg (not_le.mpr h)]
    · rw [if_neg h1]

/-- Witness for C3: the empty store panics on any query. -/
theorem get_colour_precondition_panic_witness :
    get_colour ColourGradient.new 0 = none :=
  get_colour_precondition_panic ColourGradient.new 0 (Or.inl (by decide))

/-! ## Claim C9: the mutators touch only their own field -/

/-- Claim C9: `add_colour` appends at the end of the stop list and leaves
`min` and `max` unchanged; `set_min` overwrites only `min`; `set_max`
overwrites only `max`. None of them validates anything: they are total. -/
theorem mutators_frame (g : ColourGradient) (c : RGBAColour) (q : ℚ) :
    (add_colour g c).colours = g.colours ++ [c] ∧
    (add_colour g c).min = g.min ∧ (add_colour g c).max = g.max ∧
    (set_min g q).min = q ∧ (set_min g q).max = g.max ∧
    (set_min g q).colours = g.colours ∧
    (set_max g q).max = q ∧ (set_max g q).min = g.min ∧
    (set_max g q).colours = g.colours :=
  ⟨rfl, rfl, rfl, rfl, rfl, rfl, rfl, rfl, rfl⟩

/-! ## Claim C8: `get_colour` is pure and deterministic -/

/-- Claim C8: a `get_colour` call, seen as a state transition, leaves the
store unchanged (the Rust receiver is `&self`), and two calls on equal
store states with equal input values return identical results. -/
theorem get_colour_pure (g g' : ColourGradient) (v v' : ℚ)
    (hg : g' = g) (hv : v' = v) :
    (get_colour_call g v).1 = g ∧
    (get_colour_call g' v').2 = (get_colour_call g v).2 := by
  subst hg; subst hv
  exact ⟨rfl, rfl⟩

/-- Witness for C8 at the empty store and value `0`. -/
theorem get_colour_pure_witness :
    (get_colour_call ColourGradient.new 0).1 = ColourGradient.new ∧
    (get_colour_call ColourGradient.new 0).2 =
      (get_colour_call ColourGradient.new 0).2 :=
  get_colour_pure ColourGradient.new ColourGradient.new 0 0 rfl rfl

/-! ## Claim C10: the division by `range` never divides by zero -/

/-- Claim C10: whenever the interpolation path of `get_colour` is reached
(`min < value < max`), `range = max - min` is strictly positive; in the
degenerate case `max = min` every query returns through a clamp branch
(for `value ≥ max` the last stop, otherwise — then `value < max = min` —
the first stop) and the division is never reached. -/
theorem interp_path_range_pos (g : ColourGradient) (value : ℚ)
    (h1 : 1 < g.colours.length) :
    (g.min < value → value < g.max → 0 < g.max - g.min) ∧
    (g.max = g.min →
      (g.max ≤ value → get_colour g value = g.colours.getLast?) ∧
      (value < g.max → get_colour g value = g.colours.head?)) := by
  constructor
  · intro hlo hhi
    linarith
  · intro heq
    have h2 : g.min ≤ g.max := le_of_eq heq.symm
    refine ⟨fun hv => get_colour_clamp_max h1 h2 hv, fun hv => ?_⟩
    exact get_colour_clamp_min h1 h2 (not_le.mpr hv) (le_of_lt (heq ▸ hv))

/-- Witness for C10: positive range on the interpolation path of the
black-white gradient, and clamping on a degenerate-domain gradient. -/
theorem interp_path_range_pos_witness :
    (0 : ℚ) < gradientBW.max - gradientBW.min ∧
    get_colour gradientDegenerate 1 = gradientDegenerate.colours.getLast? := by
  constructor
  · exact (interp_path_range_pos gradientBW (1/2) (by decide)).1
      (by norm_num [gradientBW_eq]) (by norm_num [gradientBW_eq])
  · exact ((interp_path_range_pos gradientDegenerate 1 (by decide)).2 rfl).1
      (by norm_num [gradientDegenerate])

/-! ## Claim C4: saturating clamp at the domain edges -/

/-- Counterexample to C4 as stated: with the degenerate domain
`min = max = 1/2` (allowed by the claim's `max ≥ min`) and `value = 1/2 ≤ min`,
`get_colour` returns the *last* stop (white), not the first stop (black)
the claim demands: the `value ≥ max` branch is checked first. -/
theorem clamp_min_counterexample :
    1 < gradientDegenerate.colours.length ∧
    gradientDegenerate.min ≤ gradientDegenerate.max ∧
    (1/2 : ℚ) ≤ gradientDegenerate.min ∧
    gradientDegenerate.colours.head? = some blackC ∧
    get_colour gradientDegenerate (1/2) = some whiteC ∧
    whiteC ≠ blackC := by
  refine ⟨by decide, by norm_num [gradientDegenerate], by norm_num [gradientDegenerate],
    rfl, ?_, by decide⟩
  rw [get_colour_clamp_max (by decide) (by norm_num [gradientDegenerate])
    (by norm_num [gradientDegenerate])]
  rfl

/-- Claim C4 (amended): for a store with at least 2 stops and `max ≥ min`,
`value ≥ max` returns the last stop unchanged; `value ≤ min` returns the
first stop unchanged *provided* `value < max` (when `min = max = value` the
`value ≥ max` clamp takes precedence and the last stop is returned). -/
theorem get_colour_clamps (g : ColourGradient) (value : ℚ)
    (h1 : 1 < g.colours.length) (h2 : g.min ≤ g.max) :
    (g.max ≤ value → get_colour g value = g.colours.getLast?) ∧
    (value ≤ g.min → value < g.max → get_colour g value = g.colours.head?) := by
  refine ⟨fun h3 => get_colour_clamp_max h1 h2 h3, fun h4 h5 => ?_⟩
  exact get_colour_clamp_min h1 h2 (not_le.mpr h5) h4

/-- Witness for C4 (amended) on the black-white gradient: clamping beyond
both edges. -/
theorem get_colour_clamps_witness :
    get_colour gradientBW 2 = gradientBW.colours.getLast? ∧
    get_colour gradientBW (-1) = gradientBW.colours.head? := by
  constructor
  · exact (get_colour_clamps gradientBW 2 (by decide)
      (by norm_num [gradientBW_eq])).1 (by norm_num [gradientBW_eq])
  · exact (get_colour_clamps gradientBW (-1) (by decide)
      (by norm_num [gradientBW_eq])).2
      (by norm_num [gradientBW_eq]) (by norm_num [gradientBW_eq])

/-! ## Claim C6: the repository's test vectors -/

/-- Claim C6: the exact outputs of `get_colour` on the two test gradients of
the repository: black-white over `[0,1]` at `0`, `1`, `1/2`, and
black-white-black over `[0,1]` at `0`, `1`, `1/2`, `1/8`, `1/4`, `3/4`. -/
theorem get_colour_test_vectors :
    get_colour gradientBW 0 = some blackC ∧
    get_colour gradientBW 1 = some whiteC ∧
    get_colour gradientBW (1/2) = some ⟨128, 128, 128, 255⟩ ∧
    get_colour gradientBWB 0 = some blackC ∧
    get_colour gradientBWB 1 = some blackC ∧
    get_colour gradientBWB (1/2) = some whiteC ∧
    get_colour gradientBWB (1/8) = some ⟨64, 64, 64, 255⟩ ∧
    get_colour gradientBWB (1/4) = some ⟨128, 128, 128, 255⟩ ∧
    get_colour gradientBWB (3/4) = some ⟨128, 128, 128, 255⟩ := by
  have hBW1 : 1 < gradientBW.colours.length := by decide
  have hBW2 : gradientBW.min ≤ gradientBW.max := by norm_num [gradientBW_eq]
  have hB1 : 1 < gradientBWB.colours.length := by decide
  have hB2 : gradientBWB.min ≤ gradientBWB.max := by norm_num [gradientBWB_eq]
  refine ⟨?_, ?_, ?_, ?_, ?_, ?_, ?_, ?_, ?_⟩
  · rw [get_colour_clamp_min hBW1 hBW2 (by norm_num [gradientBW_eq])
      (by norm_num [gradientBW_eq])]
    rfl
  · rw [get_colour_clamp_max hBW1 hBW2 (by norm_num [gradientBW_eq])]
    rfl
  · rw [get_colour_interp hBW1 hBW2 (by norm_num [gradientBW_eq])
      (by norm_num [gradientBW_eq])]
    norm_num [gradientBW_eq, blackC, whiteC, idxOf, scaledOf, fracOf, interp4,
      interpolate, satU8, roundHalfAway]
    decide
  · rw [get_colour_clamp_min hB1 hB2 (by norm_num [gradientBWB_eq])
      (by norm_num [gradientBWB_eq])]
    rfl
  · rw [get_colour_clamp_max hB1 hB2 (by norm_num [gradientBWB_eq])]
    rfl
  · rw [get_colour_interp hB1 hB2 (by norm_num [gradientBWB_eq])
      (by norm_num [gradientBWB_eq])]
    norm_num [gradientBWB_eq, blackC, whiteC, idxOf, scaledOf, fracOf, interp4,
      interpolate, satU8, roundHalfAway]
    decide
  · rw [get_colour_interp hB1 hB2 (by norm_num [gradientBWB_eq])
      (by norm_num [gradientBWB_eq])]
    norm_num [gradientBWB_eq, blackC, whiteC, idxOf, scaledOf, fracOf, interp4,
      interpolate, satU8, roundHalfAway]
    decide
  · rw [get_colour_interp hB1 hB2 (by norm_num [gradientBWB_eq])
      (by norm_num [gradientBWB_eq])]
    norm_num [gradientBWB_eq, blackC, whiteC, idxOf, scaledOf, fracOf, interp4,
      interpolate, satU8, roundHalfAway]
    decide
  · rw [get_colour_interp hB1 hB2 (by norm_num [gradientBWB_eq])
      (by norm_num [gradientBWB_eq])]
    norm_num [gradientBWB_eq, blackC, whiteC, idxOf, scaledOf, fracOf, interp4,
      interpolate, satU8, roundHalfAway]
    decide

/-! ## Claim C1: bounds of the band index -/

/-- Counterexample to C1 as stated: on the 2-stop gradient over `[1, 2]`
the in-domain query `value = 3/2` reaches the interpolation path with
`idx = 1`, so `idx + 1 = 2` runs past the end of the stop list — no clamp
exists — and the call panics (`none`). -/
theorem interp_path_out_of_bounds_counterexample :
    1 < gradientShifted.colours.length ∧
    gradientShifted.min ≤ gradientShifted.max ∧
    gradientShifted.min < 3/2 ∧ (3/2 : ℚ) < gradientShifted.max ∧
    idxOf gradientShifted (3/2) + 1 = 2 ∧
    gradientShifted.colours.length = 2 ∧
    get_colour gradientShifted (3/2) = none := by
  have h1 : 1 < gradientShifted.colours.length := by decide
  have h2 : gradientShifted.min ≤ gradientShifted.max := by
    norm_num [gradientShifted]
  have hidx : idxOf gradientShifted (3/2) = 1 := by
    norm_num [idxOf, scaledOf, gradientShifted]
  refine ⟨h1, h2, by norm_num [gradientShifted], by norm_num [gradientShifted],
    by rw [hidx], by decide, ?_⟩
  rw [get_colour_interp h1 h2 (by norm_num [gradientShifted])
    (by norm_num [gradientShifted]), hidx]
  rfl

/-- Claim C1 (amended): `get_colour` performs no defensive clamp on `idx`;
under exact arithmetic the lookup stays in bounds whenever `min ≤ 0` (in
particular over the default domain `[0, 1]`): for any store with at least
2 stops and any `min < value < max`, `idx + 1` is a valid stop position and
the call returns a colour. (For `min > 0` it can run out of bounds, as the
counterexample shows.) -/
theorem interp_path_inbounds_of_min_nonpos (g : ColourGradient) (value : ℚ)
    (h1 : 1 < g.colours.length) (hm : g.min ≤ 0)
    (hlo : g.min < value) (hhi : value < g.max) :
    idxOf g value + 1 < g.colours.length ∧
    (get_colour g value).isSome = true := by
  have h2 : g.min ≤ g.max := le_of_lt (hlo.trans hhi)
  have hrange : 0 < g.max - g.min := by linarith
  have hn : (2 : ℚ) ≤ (g.colours.length : ℚ) := by exact_mod_cast h1
  have hidx : idxOf g value + 1 < g.colours.length := by
    by_cases hv : value ≤ 0
    · have hq : value / (g.max - g.min) ≤ 0 :=
        div_nonpos_iff.mpr (Or.inr ⟨hv, hrange.le⟩)
      have hs : scaledOf g value ≤ 0 := by
        unfold scaledOf
        nlinarith [mul_nonneg (neg_nonneg.mpr hq)
          (show (0:ℚ) ≤ (g.colours.length : ℚ) - 1 by linarith)]
      have hfl : ⌊scaledOf g value⌋ ≤ 0 := by
        have := Int.floor_le_floor hs
        simpa using this
      unfold idxOf
      omega
    · push_neg at hv
      have hvr : value / (g.max - g.min) < 1 :=
        (div_lt_one hrange).mpr (by linarith)
      have hs : scaledOf g value < (g.colours.length : ℚ) - 1 := by
        unfold scaledOf
        have hpos : (0:ℚ) < (g.colours.length : ℚ) - 1 := by linarith
        calc value / (g.max - g.min) * ((g.colours.length : ℚ) - 1)
            < 1 * ((g.colours.length : ℚ) - 1) :=
              mul_lt_mul_of_pos_right hvr hpos
          _ = (g.colours.length : ℚ) - 1 := one_mul _
      have hfl : ⌊scaledOf g value⌋ < (g.colours.length : ℤ) - 1 :=
        Int.floor_lt.mpr (by push_cast; linarith)
      unfold idxOf
      omega
  refine ⟨hidx, ?_⟩
  obtain ⟨x, hx⟩ : ∃ x, g.colours[idxOf g value]? = some x :=
    ⟨_, List.getElem?_eq_getElem (by omega)⟩
  obtain ⟨y, hy⟩ : ∃ y, g.colours[idxOf g value + 1]? = some y :=
    ⟨_, List.getElem?_eq_getElem hidx⟩
  rw [get_colour_interp h1 h2 (not_le.mpr hhi) (not_le.mpr hlo), hx, hy]
  rfl

/-- Witness for C1 (amended) on the black-white gradient at `value = 1/2`. -/
theorem interp_path_inbounds_witness :
    idxOf gradientBW (1/2) + 1 < gradientBW.colours.length ∧
    (get_colour gradientBW (1/2)).isSome = true :=
  interp_path_inbounds_of_min_nonpos gradientBW (1/2) (by decide)
    (by norm_num [gradientBW_eq]) (by norm_num [gradientBW_eq])
    (by norm_num [gradientBW_eq])

/-! ## Claim C2: the index-space mapping formula -/

/-- Counterexample to C2 as stated: on the 2-stop gradient over `[-1, 1]`
at the in-domain query `value = -1/2`, `floor(scaled) = -1` while the
code's band index is `0` (the `as usize` cast saturates), so
`idx = floor(scaled)` fails and the code's `ratio` is the negative
`scaled - 0`, not `scaled - floor(scaled)`; following the claim's formula
literally produces no colour while the code returns black. -/
theorem idx_ne_floor_counterexample :
    1 < gradientNeg.colours.length ∧
    gradientNeg.min ≤ gradientNeg.max ∧
    gradientNeg.min < -(1/2) ∧ (-(1/2) : ℚ) < gradientNeg.max ∧
    ⌊scaledOf gradientNeg (-(1/2))⌋ = -1 ∧
    (idxOf gradientNeg (-(1/2)) : Int) = 0 ∧
    get_colour gradientNeg (-(1/2)) = some blackC ∧
    specInterpPath gradientNeg (-(1/2)) = none := by
  have h1 : 1 < gradientNeg.colours.length := by decide
  have h2 : gradientNeg.min ≤ gradientNeg.max := by norm_num [gradientNeg]
  have hfl : ⌊scaledOf gradientNeg (-(1/2))⌋ = -1 := by
    norm_num [scaledOf, gradientNeg]
  have hidx : idxOf gradientNeg (-(1/2)) = 0 := by
    rw [idxOf, hfl]
    rfl
  refine ⟨h1, h2, by norm_num [gradientNeg], by norm_num [gradientNeg],
    hfl, by rw [hidx]; rfl, ?_, ?_⟩
  · have hfrac : fracOf gradientNeg (-(1/2)) = -(1/4) := by
      rw [fracOf, hidx]
      norm_num [scaledOf, gradientNeg]
    rw [get_colour_interp h1 h2 (by norm_num [gradientNeg])
      (by norm_num [gradientNeg]), hidx]
    show some (interp4 blackC whiteC (fracOf gradientNeg (-(1/2)))) = some blackC
    rw [hfrac]
    rw [show interp4 blackC whiteC (-(1/4)) =
      ⟨satU8 (roundHalfAway (-(255/4))), satU8 (roundHalfAway (-(255/4))),
       satU8 (roundHalfAway (-(255/4))), satU8 (roundHalfAway 255)⟩ by
        norm_num [interp4, interpolate, blackC, whiteC]]
    rw [show roundHalfAway (-(255/4)) = -64 by
      rw [roundHalfAway, if_neg (by norm_num)]
      norm_num]
    rw [show roundHalfAway (255 : ℚ) = 255 from roundHalfAway_natCast 255]
    rfl
  · rw [specInterpPath]
    norm_num [gradientNeg]

/-- Claim C2 (amended): on the interpolation path `scaled` is exactly
`value / (max - min) * (stopCount - 1)` — dividing the raw, unshifted
`value` — and `ratio = scaled - idx`, but the band index is the *saturated*
floor `idx = max(0, floor(scaled))` because of the `as usize` cast; it
equals `floor(scaled)` itself exactly when `scaled ≥ 0`. `get_colour`
interpolates between the stops at `idx` and `idx + 1` with `ratio`. -/
theorem get_colour_interp_formula (g : ColourGradient) (value : ℚ)
    (h1 : 1 < g.colours.length) (h2 : g.min ≤ g.max)
    (h3 : ¬ g.max ≤ value) (h4 : ¬ value ≤ g.min) :
    scaledOf g value = value / (g.max - g.min) * ((g.colours.length : ℚ) - 1) ∧
    (idxOf g value : Int) = Max.max 0 ⌊scaledOf g value⌋ ∧
    fracOf g value = scaledOf g value - (idxOf g value : ℚ) ∧
    (get_colour g value =
      match g.colours[idxOf g value]?, g.colours[idxOf g value + 1]? with
      | some fst, some snd => some (interp4 fst snd (fracOf g value))
      | _, _ => none) ∧
    (0 ≤ scaledOf g value → (idxOf g value : Int) = ⌊scaledOf g value⌋) := by
  refine ⟨rfl, ?_, rfl, get_colour_interp h1 h2 h3 h4, fun hs => ?_⟩
  · rw [idxOf, Int.toNat_eq_max, max_comm]
  · rw [idxOf]
    exact Int.toNat_of_nonneg (Int.floor_nonneg.mpr hs)

/-- Witness for C2 (amended) on the black-white gradient at `value = 1/2`. -/
theorem get_colour_interp_formula_witness :
    scaledOf gradientBW (1/2) =
      (1/2) / (gradientBW.max - gradientBW.min) *
        ((gradientBW.colours.length : ℚ) - 1) ∧
    (idxOf gradientBW (1/2) : Int) = Max.max 0 ⌊scaledOf gradientBW (1/2)⌋ ∧
    fracOf gradientBW (1/2) =
      scaledOf gradientBW (1/2) - (idxOf gradientBW (1/2) : ℚ) ∧
    (get_colour gradientBW (1/2) =
      match gradientBW.colours[idxOf gradientBW (1/2)]?,
          gradientBW.colours[idxOf gradientBW (1/2) + 1]? with
      | some fst, some snd => some (interp4 fst snd (fracOf gradientBW (1/2)))
      | _, _ => none) ∧
    (0 ≤ scaledOf gradientBW (1/2) → (idxOf gradientBW (1/2) : Int) =
      ⌊scaledOf gradientBW (1/2)⌋) :=
  get_colour_interp_formula gradientBW (1/2) (by decide)
    (by norm_num [gradientBW_eq]) (by norm_num [gradientBW_eq])
    (by norm_num [gradientBW_eq])

/-! ## Claim C5: per-channel interpolation and 8-bit validity -/

/-- Claim C5: on the interpolation path each of the four channels is
computed independently as `round((finish - start) * ratio + start)` with
round-half-away-from-zero semantics (saturated into the 8-bit range by the
`as u8` cast), and every result channel is a valid 8-bit value. The two
`roundHalfAway` equations pin the half-away behaviour at the boundary. -/
theorem interp_channels_formula (g : ColourGradient) (value : ℚ)
    (fst snd : RGBAColour)
    (h1 : 1 < g.colours.length) (h2 : g.min ≤ g.max)
    (h3 : ¬ g.max ≤ value) (h4 : ¬ value ≤ g.min)
    (hfst : g.colours[idxOf g value]? = some fst)
    (hsnd : g.colours[idxOf g value + 1]? = some snd) :
    get_colour g value = some (interp4 fst snd (fracOf g value)) ∧
    interp4 fst snd (fracOf g value) =
      { r := satU8 (roundHalfAway
          (((snd.r : ℚ) - (fst.r : ℚ)) * fracOf g value + (fst.r : ℚ)))
        g := satU8 (roundHalfAway
          (((snd.g : ℚ) - (fst.g : ℚ)) * fracOf g value + (fst.g : ℚ)))
        b := satU8 (roundHalfAway
          (((snd.b : ℚ) - (fst.b : ℚ)) * fracOf g value + (fst.b : ℚ)))
        a := satU8 (roundHalfAway
          (((snd.a : ℚ) - (fst.a : ℚ)) * fracOf g value + (fst.a : ℚ))) } ∧
    (interp4 fst snd (fracOf g value)).valid ∧
    roundHalfAway (1/2) = 1 ∧ roundHalfAway (-(1/2)) = -1 := by
  refine ⟨?_, rfl, ⟨satU8_le _, satU8_le _, satU8_le _, satU8_le _⟩, ?_, ?_⟩
  · rw [get_colour_interp h1 h2 h3 h4, hfst, hsnd]
  · rw [roundHalfAway, if_pos (by norm_num)]
    norm_num
  · rw [roundHalfAway, if_neg (by norm_num)]
    norm_num

/-- Witness for C5 on the black-white gradient at `value = 1/2`. -/
theorem interp_channels_formula_witness :
    get_colour gradientBW (1/2) =
      some (interp4 blackC whiteC (fracOf gradientBW (1/2))) ∧
    interp4 blackC whiteC (fracOf gradientBW (1/2)) =
      { r := satU8 (roundHalfAway
          (((whiteC.r : ℚ) - (blackC.r : ℚ)) * fracOf gradientBW (1/2) + (blackC.r : ℚ)))
        g := satU8 (roundHalfAway
          (((whiteC.g : ℚ) - (blackC.g : ℚ)) * fracOf gradientBW (1/2) + (blackC.g : ℚ)))
        b := satU8 (roundHalfAway
          (((whiteC.b : ℚ) - (blackC.b : ℚ)) * fracOf gradientBW (1/2) + (blackC.b : ℚ)))
        a := satU8 (roundHalfAway
          (((whiteC.a : ℚ) - (blackC.a : ℚ)) * fracOf gradientBW (1/2) + (blackC.a : ℚ))) } ∧
    (interp4 blackC whiteC (fracOf gradientBW (1/2))).valid ∧
    roundHalfAway (1/2) = 1 ∧ roundHalfAway (-(1/2)) = -1 :=
  interp_channels_formula gradientBW (1/2) blackC whiteC (by decide)
    (by norm_num [gradientBW_eq]) (by norm_num [gradientBW_eq])
    (by norm_num [gradientBW_eq])
    (by have h : idxOf gradientBW (1/2) = 0 := by
          norm_num [idxOf, scaledOf, gradientBW_eq]
        rw [h]; rfl)
    (by have h : idxOf gradientBW (1/2) = 0 := by
          norm_num [idxOf, scaledOf, gradientBW_eq]
        rw [h]; rfl)

/-! ## Claim C7: per-channel monotonicity for 2-stop gradients -/

/-- Shape of every normal `get_colour` return on a 2-stop store: the last
stop (upper clamp), the first stop (lower clamp), or the interpolation
between the two stops at `t = value / (max - min)` with `t < 1` (the band
index is forced to `0` by the successful `idx + 1` lookup). -/
theorem get_colour_two_stop_shape {g : ColourGradient} {c1 c2 : RGBAColour}
    {v : ℚ} {o : RGBAColour}
    (hc : g.colours = [c1, c2]) (h2 : g.min ≤ g.max)
    (ho : get_colour g v = some o) :
    (g.max ≤ v ∧ o = c2) ∨
    (¬ g.max ≤ v ∧ v ≤ g.min ∧ o = c1) ∨
    (¬ g.max ≤ v ∧ ¬ v ≤ g.min ∧
      o = interp4 c1 c2 (v / (g.max - g.min)) ∧
      v / (g.max - g.min) < 1) := by
  have h1 : 1 < g.colours.length := by simp [hc]
  by_cases hmx : g.max ≤ v
  · left
    rw [get_colour_clamp_max h1 h2 hmx, hc] at ho
    have hlast : [c1, c2].getLast? = some c2 := rfl
    rw [hlast] at ho
    exact ⟨hmx, (Option.some_inj.mp ho).symm⟩
  · by_cases hmn : v ≤ g.min
    · right; left
      rw [get_colour_clamp_min h1 h2 hmx hmn, hc] at ho
      exact ⟨hmx, hmn, (Option.some_inj.mp ho).symm⟩
    · right; right
      have hsc : scaledOf g v = v / (g.max - g.min) := by
        rw [scaledOf, hc]
        norm_num
      have hidx0 : idxOf g v = 0 := by
        by_contra hne
        have hnone : g.colours[idxOf g v + 1]? = none :=
          List.getElem?_eq_none (by rw [hc]; simp; omega)
        rw [get_colour_interp h1 h2 hmx hmn, hnone] at ho
        cases hl : g.colours[idxOf g v]? <;> rw [hl] at ho <;> simp at ho
      have hfrac : fracOf g v = v / (g.max - g.min) := by
        rw [fracOf, hidx0, hsc]
        simp
      have hlt : v / (g.max - g.min) < 1 := by
        have hfl : ⌊scaledOf g v⌋ ≤ 0 := by
          have := hidx0
          unfold idxOf at this
          omega
        rw [hsc] at hfl
        have h01 := Int.lt_floor_add_one (v / (g.max - g.min))
        have hcast : ((⌊v / (g.max - g.min)⌋ : ℚ)) ≤ 0 := by exact_mod_cast hfl
        linarith
      rw [get_colour_interp h1 h2 hmx hmn, hidx0, hc] at ho
      simp only [List.getElem?_cons_zero, List.getElem?_cons_succ] at ho
      rw [hfrac] at ho
      exact ⟨hmx, hmn, (Option.some_inj.mp ho).symm, hlt⟩

/-- Claim C7 (amended): for a 2-stop gradient with per-channel
non-decreasing stops over a domain with `min ≥ 0`, `get_colour` is
per-channel monotone non-decreasing on `[min, max]` across every pair of
queries that return normally. (For `min < 0` monotonicity fails — the
negative `ratio` produced by the saturated index breaks it — as the
counterexample shows.) -/
theorem get_colour_two_stop_mono (g : ColourGradient) (c1 c2 : RGBAColour)
    (v1 v2 : ℚ) (o1 o2 : RGBAColour)
    (hc : g.colours = [c1, c2]) (hval1 : c1.valid) (hval2 : c2.valid)
    (hrle : c1.r ≤ c2.r) (hgle : c1.g ≤ c2.g) (hble : c1.b ≤ c2.b)
    (hale : c1.a ≤ c2.a)
    (hmin : 0 ≤ g.min) (h12 : v1 ≤ v2) (hlo : g.min ≤ v1) (hhi : v2 ≤ g.max)
    (ho1 : get_colour g v1 = some o1) (ho2 : get_colour g v2 = some o2) :
    o1.r ≤ o2.r ∧ o1.g ≤ o2.g ∧ o1.b ≤ o2.b ∧ o1.a ≤ o2.a := by
  have h2 : g.min ≤ g.max := le_trans hlo (le_trans h12 hhi)
  obtain ⟨h1r, h1g, h1b, h1a⟩ := hval1
  obtain ⟨h2r, h2g, h2b, h2a⟩ := hval2
  rcases get_colour_two_stop_shape hc h2 ho1 with
    ⟨hA, e1⟩ | ⟨hA, hA', e1⟩ | ⟨hA, hA', e1, hs1⟩
  · -- v1 hits the upper clamp: so does v2
    rcases get_colour_two_stop_shape hc h2 ho2 with
      ⟨hB, e2⟩ | ⟨hB, hB', e2⟩ | ⟨hB, hB', e2, hs2⟩
    · subst e1; subst e2
      exact ⟨le_rfl, le_rfl, le_rfl, le_rfl⟩
    · exact absurd (le_trans hA h12) hB
    · exact absurd (le_trans hA h12) hB
  · -- v1 hits the lower clamp
    rcases get_colour_two_stop_shape hc h2 ho2 with
      ⟨hB, e2⟩ | ⟨hB, hB', e2⟩ | ⟨hB, hB', e2, hs2⟩
    · subst e1; subst e2
      exact ⟨hrle, hgle, hble, hale⟩
    · subst e1; subst e2
      exact ⟨le_rfl, le_rfl, le_rfl, le_rfl⟩
    · subst e1; subst e2
      have hv2 : 0 < v2 := lt_of_le_of_lt hmin (not_le.mp hB')
      have hrange : 0 < g.max - g.min := by
        have := lt_of_lt_of_le (not_le.mp hB') hhi
        linarith
      have ht2 : 0 ≤ v2 / (g.max - g.min) := div_nonneg hv2.le hrange.le
      exact ⟨le_interpolate hrle h1r ht2, le_interpolate hgle h1g ht2,
        le_interpolate hble h1b ht2, le_interpolate hale h1a ht2⟩
  · -- v1 on the interpolation path
    rcases get_colour_two_stop_shape hc h2 ho2 with
      ⟨hB, e2⟩ | ⟨hB, hB', e2⟩ | ⟨hB, hB', e2, hs2⟩
    · subst e1; subst e2
      exact ⟨interpolate_le hrle h2r hs1.le, interpolate_le hgle h2g hs1.le,
        interpolate_le hble h2b hs1.le, interpolate_le hale h2a hs1.le⟩
    · exact absurd (le_trans h12 hB') hA'
    · subst e1; subst e2
      have hrange : 0 < g.max - g.min := by
        have := lt_of_lt_of_le (not_le.mp hA') (le_trans h12 hhi)
        linarith
      have ht : v1 / (g.max - g.min) ≤ v2 / (g.max - g.min) :=
        (div_le_div_iff_of_pos_right hrange).mpr h12
      exact ⟨interpolate_mono hrle ht, interpolate_mono hgle ht,
        interpolate_mono hble ht, interpolate_mono hale ht⟩

/-- Counterexample to C7 as stated: on the grey ramp over `[-1, 1]`
(per-channel non-decreasing stops, `v1 = -1 ≤ v2 = -1/2`, both within the
domain) the first query returns the first stop, channel value `100`, while
the second lands on the interpolation path with the *negative* ratio
`-1/4` and returns channel value `75 < 100`: the output is not monotone. -/
theorem two_stop_mono_counterexample :
    gradientGrey.colours = [⟨100, 100, 100, 255⟩, ⟨200, 200, 200, 255⟩] ∧
    (⟨100, 100, 100, 255⟩ : RGBAColour).valid ∧
    (⟨200, 200, 200, 255⟩ : RGBAColour).valid ∧
    (100 : Nat) ≤ 200 ∧ (255 : Nat) ≤ 255 ∧
    gradientGrey.min ≤ -1 ∧ ((-1 : ℚ) ≤ -(1/2)) ∧
    (-(1/2) : ℚ) ≤ gradientGrey.max ∧
    get_colour gradientGrey (-1) = some ⟨100, 100, 100, 255⟩ ∧
    get_colour gradientGrey (-(1/2)) = some ⟨75, 75, 75, 255⟩ ∧
    ¬ ((100 : Nat) ≤ 75) := by
  have h1 : 1 < gradientGrey.colours.length := by decide
  have h2 : gradientGrey.min ≤ gradientGrey.max := by norm_num [gradientGrey]
  have hfl : ⌊scaledOf gradientGrey (-(1/2))⌋ = -1 := by
    norm_num [scaledOf, gradientGrey]
  have hidx : idxOf gradientGrey (-(1/2)) = 0 := by
    rw [idxOf, hfl]
    rfl
  have hfrac : fracOf gradientGrey (-(1/2)) = -(1/4) := by
    rw [fracOf, hidx]
    norm_num [scaledOf, gradientGrey]
  refine ⟨rfl, by decide, by decide, by decide, by decide,
    by norm_num [gradientGrey], by norm_num, by norm_num [gradientGrey],
    ?_, ?_, by decide⟩
  · rw [get_colour_clamp_min h1 h2 (by norm_num [gradientGrey])
      (by norm_num [gradientGrey])]
    rfl
  · rw [get_colour_interp h1 h2 (by norm_num [gradientGrey])
      (by norm_num [gradientGrey]), hidx]
    show some (interp4 ⟨100, 100, 100, 255⟩ ⟨200, 200, 200, 255⟩
      (fracOf gradientGrey (-(1/2)))) = some ⟨75, 75, 75, 255⟩
    rw [hfrac]
    rw [show interp4 ⟨100, 100, 100, 255⟩ ⟨200, 200, 200, 255⟩ (-(1/4)) =
      ⟨satU8 (roundHalfAway 75), satU8 (roundHalfAway 75),
       satU8 (roundHalfAway 75), satU8 (roundHalfAway 255)⟩ by
        norm_num [interp4, interpolate]]
    rw [show roundHalfAway (75 : ℚ) = 75 by
      rw [roundHalfAway, if_pos (by norm_num)]
      norm_num]
    rw [show roundHalfAway (255 : ℚ) = 255 by
      rw [roundHalfAway, if_pos (by norm_num)]
      norm_num]
    rfl

/-- Witness for C7 (amended) on the black-white gradient over `[0, 1]` at
the pair `v1 = 1/4`, `v2 = 1/2`: outputs `(64,64,64,255)` and
`(128,128,128,255)`, per-channel non-decreasing. -/
theorem two_stop_mono_witness :
    (64 : Nat) ≤ 128 ∧ (64 : Nat) ≤ 128 ∧ (64 : Nat) ≤ 128 ∧
    (255 : Nat) ≤ 255 :=
  get_colour_two_stop_mono gradientBW blackC whiteC (1/4) (1/2)
    ⟨64, 64, 64, 255⟩ ⟨128, 128, 128, 255⟩ rfl (by decide) (by decide)
    (by decide) (by decide) (by decide) (by decide)
    (by norm_num [gradientBW_eq]) (by norm_num) (by norm_num [gradientBW_eq])
    (by norm_num [gradientBW_eq])
    (by rw [get_colour_interp (by decide) (by norm_num [gradientBW_eq])
          (by norm_num [gradientBW_eq]) (by norm_num [gradientBW_eq])]
        norm_num [gradientBW_eq, blackC, whiteC, idxOf, scaledOf, fracOf,
          interp4, interpolate, satU8, roundHalfAway]
        decide)
    (by rw [get_colour_interp (by decide) (by norm_num [gradientBW_eq])
          (by norm_num [gradientBW_eq]) (by norm_num [gradientBW_eq])]
        norm_num [gradientBW_eq, blackC, whiteC, idxOf, scaledOf, fracOf,
          interp4, interpolate, satU8, roundHalfAway]
        decide)
